import Mathlib

/-!
Verification of the scoring and ranking engine of the `auto_apply` repository
(`jobspy_llm_letters`): a shallow embedding of `scoring.py` (class `JobScorer`)
and of the rank/filter step of `main.py` (`JobSpyApp.filter_top_jobs`), with
theorems settling the specification's claims about them.

Texts are modelled as `List Char` (Python `str`).  Python `float` arithmetic in
the keyword pass is modelled by exact rationals (`0.8` is `4/5 : ℚ`); Python's
`int(...)` truncation toward zero is `truncQ`.  The `warning_flags` field of
`ScoringResult` never influences any score component and is omitted from the
embedding; the `matched_keywords` entries, `f"{keyword} (x{matches})"` strings
in the source, are modelled as `(keyword, matches)` pairs.
-/

namespace AutoApply

/-- ASCII word character, modelling `\w` of Python's `re` for the texts at
hand: letters, digits, or underscore. -/
def isWordChar (c : Char) : Bool :=
  c.isAlphanum || c == '_'

/-- Word-character test lifted to an optional character: out-of-range
positions behave as non-word characters. -/
def isWordOpt : Option Char → Bool
  | none => false
  | some c => isWordChar c

/-- `\b` of Python `re` at position `i` of `text`: the characters at `i - 1`
and at `i` (absent ones counting as non-word) disagree on word-ness. -/
def boundaryAt (text : List Char) (i : Nat) : Bool :=
  isWordOpt (if i = 0 then none else text.get? (i - 1)) !=
    isWordOpt (text.get? i)

/-- The pattern `\b<kw>\b` (with `kw` escaped, hence literal) matches `text`
at position `p`. -/
def matchAt (text kw : List Char) (p : Nat) : Bool :=
  ((text.drop p).take kw.length == kw) && boundaryAt text p &&
    boundaryAt text (p + kw.length)

/-- Fuelled scan of `re.findall`: left-to-right, non-overlapping; after a
match the scan resumes past it (one position further, for an empty pattern). -/
def countFromFuel (text kw : List Char) : Nat → Nat → Nat
  | 0, _ => 0
  | fuel + 1, p =>
    if text.length < p then 0
    else if matchAt text kw p then
      1 + countFromFuel text kw fuel (p + max 1 kw.length)
    else countFromFuel text kw fuel (p + 1)

/-- `len(re.findall(rf"\b{re.escape(kw)}\b", text))`. -/
def countMatches (text kw : List Char) : Nat :=
  countFromFuel text kw (text.length + 1) 0

/-- Python `str.lower` (ASCII, sufficient for the vocabularies involved). -/
def lower (s : List Char) : List Char :=
  s.map Char.toLower

/-- `hay` starts with `sub`. -/
def startsWith : List Char → List Char → Bool
  | _, [] => true
  | [], _ :: _ => false
  | c :: cs, d :: ds => c == d && startsWith cs ds

/-- Python substring containment `sub in hay`. -/
def hasSubstr : List Char → List Char → Bool
  | [], sub => sub.isEmpty
  | c :: t, sub => startsWith (c :: t) sub || hasSubstr t sub

/-- Python `int(q)` on a rational: truncation toward zero. -/
def truncQ (q : ℚ) : ℤ :=
  if 0 ≤ q then ⌊q⌋ else ⌈q⌉

/-- `ScoringResult` of `scoring.py` (see the header for the two modelling
simplifications: `warning_flags` dropped, matched entries as pairs). -/
structure ScoringResult where
  total_score : ℤ
  keyword_score : ℤ
  location_score : ℤ
  remote_bonus : ℤ
  seniority_malus : ℤ
  length_penalty : ℤ
  matched_keywords : List (List Char × ℕ)
deriving Repr, DecidableEq

/-- Loop body of `JobScorer._score_keywords`: one keyword's contribution,
`weight * min(matches, 3) * 0.8 ** max(0, matches - 1)` when `matches > 0`
(the ℕ-subtraction `matches - 1` is exactly `max(0, matches - 1)`). -/
def score_keywords_aux (text : List Char) :
    List (List Char × ℤ) → ℚ × List (List Char × ℕ)
  | [] => (0, [])
  | (keyword, weight) :: rest =>
    let nMatches := countMatches text (lower keyword)
    let r := score_keywords_aux text rest
    if 0 < nMatches then
      ((weight : ℚ) * ((min nMatches 3 : ℕ) : ℚ) * (4 / 5 : ℚ) ^ (nMatches - 1)
          + r.1,
        (keyword, nMatches) :: r.2)
    else r

/-- `JobScorer._score_keywords`: the accumulated float score is truncated to
an integer once, after the whole pass. -/
def score_keywords (text : List Char) (keywords : List (List Char × ℤ)) :
    ℤ × List (List Char × ℕ) :=
  (truncQ (score_keywords_aux text keywords).1,
    (score_keywords_aux text keywords).2)

/-- `JobScorer.preferred_locations`. -/
def preferred_locations : List (List Char) :=
  ["mainz".toList, "wiesbaden".toList, "frankfurt".toList, "darmstadt".toList,
    "mannheim".toList, "remote".toList, "homeoffice".toList, "hybrid".toList]

/-- The remote-class subset `["remote", "homeoffice", "hybrid"]` tested inside
`_score_location`. -/
def remote_synonyms : List (List Char) :=
  ["remote".toList, "homeoffice".toList, "hybrid".toList]

/-- Loop of `JobScorer._score_location` over the preferred locations. -/
def score_location_aux (combined : List Char) : List (List Char) → ℤ
  | [] => 0
  | pref_loc :: rest =>
    (if hasSubstr combined pref_loc then
      (if pref_loc ∈ remote_synonyms then 3 else 1)
    else 0) + score_location_aux combined rest

/-- `JobScorer._score_location`: probes `f"{text} {location}"`. -/
def score_location (text location : List Char) : ℤ :=
  score_location_aux (text ++ ' ' :: location) preferred_locations

/-- Remote-work synonym list of `JobScorer._calculate_remote_bonus`. -/
def remote_indicators : List (List Char) :=
  ["remote".toList, "homeoffice".toList, "home office".toList,
    "home-office".toList, "fernarbeit".toList, "mobiles arbeiten".toList,
    "hybrid".toList]

/-- `JobScorer._calculate_remote_bonus`: the source loop returns
`bonus_remote` on the first indicator found, i.e. iff any indicator occurs. -/
def calculate_remote_bonus (text : List Char) (bonus_remote : ℤ) : ℤ :=
  if remote_indicators.any (fun ind => hasSubstr text ind) then bonus_remote
  else 0

/-- `JobScorer.negative_keywords`. -/
def negative_keywords : List (List Char) :=
  ["senior".toList, "lead".toList, "leiter".toList, "head".toList,
    "director".toList, "manager".toList, "5+ jahre".toList,
    "mehrjährig".toList, "langjährig".toList, "erfahren".toList,
    "vollzeit".toList, "40 stunden".toList, "unbefristet".toList]

/-- The senior-class subset `["senior", "lead", "leiter"]` tested inside
`_calculate_seniority_malus`. -/
def senior_terms : List (List Char) :=
  ["senior".toList, "lead".toList, "leiter".toList]

/-- The fulltime-class subset `["vollzeit", "40 stunden"]` tested inside
`_calculate_seniority_malus`. -/
def fulltime_terms : List (List Char) :=
  ["vollzeit".toList, "40 stunden".toList]

/-- One negative keyword's penalty contribution inside
`_calculate_seniority_malus` (Python `//` is `Int.fdiv`). -/
def negContrib (text : List Char) (malus_senior : ℤ) (negative : List Char) : ℤ :=
  if hasSubstr text negative then
    (if negative ∈ senior_terms then malus_senior
    else if negative ∈ fulltime_terms then max 1 (Int.fdiv malus_senior 2)
    else 1)
  else 0

/-- Accumulation loop of `_calculate_seniority_malus`. -/
def seniority_aux (text : List Char) (malus_senior : ℤ) :
    List (List Char) → ℤ
  | [] => 0
  | negative :: rest =>
    negContrib text malus_senior negative + seniority_aux text malus_senior rest

/-- `JobScorer._calculate_seniority_malus`: accumulated penalty, capped at
`malus_senior * 2`. -/
def calculate_seniority_malus (text : List Char) (malus_senior : ℤ) : ℤ :=
  min (seniority_aux text malus_senior negative_keywords) (malus_senior * 2)

/-- `JobScorer._calculate_length_penalty`. -/
def calculate_length_penalty (text job_type : List Char) : ℤ :=
  (if (job_type == "fulltime".toList || hasSubstr text ("vollzeit".toList)) &&
      (!hasSubstr text ("teilzeit".toList) &&
        !hasSubstr text ("werkstudent".toList)) then 2
  else 0) +
  (if hasSubstr text ("unbefristet".toList) &&
      !hasSubstr text ("befristet".toList) then 1
  else 0)

/-- `JobScorer.score_job`.  Python lowers `location`/`job_type` only when
truthy, which coincides with unconditional lowering (`lower [] = []`). -/
def score_job (text : List Char) (keywords : List (List Char × ℤ))
    (bonus_remote malus_senior : ℤ) (location job_type : List Char) :
    ScoringResult :=
  let text_lower := lower text
  let keyword_score := (score_keywords text_lower keywords).1
  let matched_keywords := (score_keywords text_lower keywords).2
  let location_score := score_location text_lower (lower location)
  let remote_bonus := calculate_remote_bonus text_lower bonus_remote
  let seniority_malus := calculate_seniority_malus text_lower malus_senior
  let length_penalty := calculate_length_penalty text_lower (lower job_type)
  { total_score := keyword_score + location_score + remote_bonus -
      seniority_malus - length_penalty
    keyword_score := keyword_score
    location_score := location_score
    remote_bonus := remote_bonus
    seniority_malus := seniority_malus
    length_penalty := length_penalty
    matched_keywords := matched_keywords }

/-- `scoring.compute_score`, the interface `main.py` calls. -/
def compute_score (text : List Char) (keywords : List (List Char × ℤ))
    (bonus_remote malus_senior : ℤ) (location job_type : List Char) : ℤ :=
  (score_job text keywords bonus_remote malus_senior location job_type).total_score

/-- pandas `DataFrame.head(n)`, i.e. `iloc[:n]` with Python slice semantics:
a negative `n` keeps all rows but the last `|n|`. -/
def pd_head (n : ℤ) (l : List ℤ) : List ℤ :=
  if 0 ≤ n then l.take n.toNat else l.take ((l.length : ℤ) + n).toNat

/-- `JobSpyApp.filter_top_jobs`, with dataframe rows abstracted to their
`score` column (the only field the filter consults):
`jobs_df[jobs_df["score"] >= min_score].head(top_k)`. -/
def filter_top_jobs (scores : List ℤ) (min_score top_k : ℤ) : List ℤ :=
  pd_head top_k (scores.filter (fun s => decide (min_score ≤ s)))

/-- Spec-side formulation of the keyword score (spec §4.2), for the
refinement claim C6: the sum ranges over every keyword of the policy (no
skipping of unmatched ones) and is truncated exactly once, at the end;
`countMatches text (lower kw) - 1` in ℕ is the spec's `max(0, n - 1)`. -/
def keyword_score_spec (text : List Char)
    (keywords : List (List Char × ℤ)) : ℤ :=
  truncQ ((keywords.map (fun kw =>
    (kw.2 : ℚ) * ((min (countMatches text (lower kw.1)) 3 : ℕ) : ℚ) *
      (4 / 5 : ℚ) ^ (countMatches text (lower kw.1) - 1))).sum)

/-- The C1/C8/C10 scenario inputs of spec §8. -/
def demo_text : List Char :=
  "Werkstudent Python Data Analytics Linux SQL Remote".toList

/-- The keyword policy of the spec §8 scenarios. -/
def demo_policy : List (List Char × ℤ) :=
  [("Python".toList, 4), ("Data Analytics".toList, 3), ("Linux".toList, 3),
    ("Werkstudent".toList, 3), ("SQL".toList, 2), ("senior".toList, -3),
    ("vollzeit".toList, -2)]

/-! ### Helper lemmas -/

lemma hasSubstr_of_startsWith {hay sub : List Char}
    (h : startsWith hay sub = true) : hasSubstr hay sub = true := by
  cases hay with
  | nil =>
    cases sub with
    | nil => rfl
    | cons d ds => simp [startsWith] at h
  | cons c t => simp [hasSubstr, h]

lemma hasSubstr_cons {t sub : List Char} (c : Char)
    (h : hasSubstr t sub = true) : hasSubstr (c :: t) sub = true := by
  simp [hasSubstr, h]

lemma hasSubstr_of_startsWith_append :
    ∀ (pre : List Char) {hay sub : List Char},
      startsWith hay (pre ++ sub) = true → hasSubstr hay sub = true
  | [], _, _, h => hasSubstr_of_startsWith h
  | p :: ps, hay, sub, h => by
    cases hay with
    | nil => simp [startsWith] at h
    | cons c t =>
      simp only [List.cons_append, startsWith, Bool.and_eq_true] at h
      exact hasSubstr_cons c (hasSubstr_of_startsWith_append ps h.2)

lemma hasSubstr_append_right {hay : List Char} :
    ∀ (pre : List Char) {sub : List Char},
      hasSubstr hay (pre ++ sub) = true → hasSubstr hay sub = true := by
  induction hay with
  | nil =>
    intro pre sub h
    simp only [hasSubstr, List.isEmpty_iff, List.append_eq_nil] at h
    rcases h with ⟨-, rfl⟩
    rfl
  | cons c t ih =>
    intro pre sub h
    simp only [hasSubstr, Bool.or_eq_true] at h
    rcases h with h1 | h2
    · exact hasSubstr_of_startsWith_append pre h1
    · exact hasSubstr_cons c (ih pre h2)

/-- The source's dead guard: a text containing `"unbefristet"` always
contains `"befristet"` as a substring. -/
lemma hasSubstr_befristet {text : List Char}
    (h : hasSubstr text ("unbefristet".toList) = true) :
    hasSubstr text ("befristet".toList) = true := by
  have e : ("unbefristet".toList : List Char) =
      "un".toList ++ "befristet".toList := by decide
  exact hasSubstr_append_right ("un".toList) (e ▸ h)

lemma truncQ_mono {q r : ℚ} (h : q ≤ r) : truncQ q ≤ truncQ r := by
  by_cases hq : 0 ≤ q <;> by_cases hr : 0 ≤ r <;> simp only [truncQ, hq, hr,
    if_true, if_false, reduceIte]
  · exact Int.floor_le_floor h
  · exact absurd (hq.trans h) hr
  · refine le_trans (Int.ceil_le.mpr ?_) (Int.floor_nonneg.mpr hr)
    exact_mod_cast le_of_not_le hq
  · exact Int.ceil_le_ceil h

/-- The keyword pass accumulates, in exact arithmetic, the per-keyword
formula summed over the whole policy (unmatched keywords contribute 0). -/
lemma score_keywords_aux_fst (text : List Char) :
    ∀ keywords : List (List Char × ℤ),
      (score_keywords_aux text keywords).1 =
        (keywords.map (fun kw =>
          (kw.2 : ℚ) * ((min (countMatches text (lower kw.1)) 3 : ℕ) : ℚ) *
            (4 / 5 : ℚ) ^ (countMatches text (lower kw.1) - 1))).sum := by
  intro keywords
  induction keywords with
  | nil => simp [score_keywords_aux]
  | cons kw rest ih =>
    obtain ⟨keyword, weight⟩ := kw
    simp only [score_keywords_aux, List.map_cons, List.sum_cons]
    split_ifs with hm
    · simp [ih]
    · have h0 : countMatches text (lower keyword) = 0 :=
        Nat.eq_zero_of_not_pos hm
      simp [h0, ih]

lemma score_location_aux_eq_sum (combined : List Char) :
    ∀ l : List (List Char),
      score_location_aux combined l =
        (l.map (fun pref_loc =>
          if hasSubstr combined pref_loc = true then
            (if pref_loc ∈ remote_synonyms then (3 : ℤ) else 1)
          else 0)).sum := by
  intro l
  induction l with
  | nil => simp [score_location_aux]
  | cons p rest ih => simp [score_location_aux, ih]

lemma negContrib_nonneg_three (text negative : List Char) :
    0 ≤ negContrib text 3 negative := by
  unfold negContrib
  split_ifs <;> decide

lemma seniority_aux_nonneg_three (text : List Char) :
    ∀ l : List (List Char), 0 ≤ seniority_aux text 3 l := by
  intro l
  induction l with
  | nil => simp [seniority_aux]
  | cons n rest ih =>
    simp only [seniority_aux]
    exact add_nonneg (negContrib_nonneg_three text n) ih

lemma seniority_aux_zero {text : List Char} (malus_senior : ℤ) :
    ∀ l : List (List Char), (∀ n ∈ l, hasSubstr text n = false) →
      seniority_aux text malus_senior l = 0 := by
  intro l
  induction l with
  | nil => intro _; rfl
  | cons n rest ih =>
    intro h
    have hn := h n (List.mem_cons_self n rest)
    have hrest := ih fun m hm => h m (List.mem_cons_of_mem n hm)
    simp [seniority_aux, negContrib, hn, hrest]

lemma countMatches_nil (kw : List Char) : countMatches [] kw = 0 := by
  cases kw <;> rfl

lemma lower_nil : lower [] = [] := rfl

lemma score_keywords_empty (keywords : List (List Char × ℤ)) :
    score_keywords [] keywords = (0, []) := by
  have haux : score_keywords_aux [] keywords = (0, []) := by
    induction keywords with
    | nil => rfl
    | cons kw rest ih =>
      obtain ⟨keyword, weight⟩ := kw
      simp [score_keywords_aux, countMatches_nil, ih]
  simp [score_keywords, haux, truncQ]

/-! ### Claims -/

/-- C1, counterexample: on the spec §8 scenario (text "Werkstudent Python
Data Analytics Linux SQL Remote", the stated policy, bonus_remote = 3,
malus_senior = 4) the code returns total_score = 21, not the claimed 18:
the claim omits the +3 location score that "remote" also earns in
`_score_location`. -/
theorem c1_counterexample :
    (score_job demo_text demo_policy 3 4 [] []).total_score = 21 ∧
      ¬ (score_job demo_text demo_policy 3 4 [] []).total_score = 18 := by
  with_unfolding_all decide

/-- C1, amended: on the spec §8 scenario the score operation returns
keyword_score = 15, location_score = 3, remote_bonus = 3,
seniority_malus = 0, length_penalty = 0, and total_score = 21. -/
theorem c1_amended :
    (score_job demo_text demo_policy 3 4 [] []).keyword_score = 15 ∧
    (score_job demo_text demo_policy 3 4 [] []).location_score = 3 ∧
    (score_job demo_text demo_policy 3 4 [] []).remote_bonus = 3 ∧
    (score_job demo_text demo_policy 3 4 [] []).seniority_malus = 0 ∧
    (score_job demo_text demo_policy 3 4 [] []).length_penalty = 0 ∧
    (score_job demo_text demo_policy 3 4 [] []).total_score = 21 := by
  with_unfolding_all decide

/-- C2: the claimed "+1 when `unbefristet` appears without `befristet`" can
never fire, because `"befristet"` is a substring of `"unbefristet"`, so the
guard `"befristet" not in text` is false whenever the branch is reached: the
length penalty is at most 2 for every text and job type, and on the input
"unbefristet vollzeit stelle" the code yields 2 where the claim demands 3. -/
theorem c2_length_penalty_at_most_two :
    calculate_length_penalty ("unbefristet vollzeit stelle".toList) [] = 2 ∧
      ∀ text job_type : List Char,
        calculate_length_penalty text job_type ≤ 2 := by
  constructor
  · decide
  · intro text job_type
    unfold calculate_length_penalty
    have h2 : (if hasSubstr text ("unbefristet".toList) &&
        !hasSubstr text ("befristet".toList) then (1 : ℤ) else 0) = 0 := by
      rcases hu : hasSubstr text ("unbefristet".toList) with _ | _
      · simp [hu]
      · rw [hasSubstr_befristet hu]; decide
    rw [h2]
    split_ifs <;> norm_num

/-- C3, counterexample: with both "remote" and "homeoffice" present, the
location score is 6, not a single +3 tier: every matched remote synonym
adds its own +3. -/
theorem c3_counterexample :
    score_location ("remote homeoffice".toList) [] = 6 ∧
      ¬ score_location ("remote homeoffice".toList) [] = 3 := by
  decide

/-- C3, amended: the location score is the sum, over the preferred-location
list, of +3 for each matched remote/hybrid synonym and +1 for each matched
preferred city — remote synonyms stack with each other and with city
bonuses rather than being credited as a single tier. -/
theorem c3_amended :
    ∀ text location : List Char,
      score_location text location =
        (preferred_locations.map (fun pref_loc =>
          if hasSubstr (text ++ ' ' :: location) pref_loc = true then
            (if pref_loc ∈ remote_synonyms then (3 : ℤ) else 1)
          else 0)).sum :=
  fun _ _ => score_location_aux_eq_sum _ _

/-- C4, counterexample: the claim's "top_k ≤ 0 returns an empty result" is
false for negative top_k: pandas `head(-1)` keeps all but the last row, so
`filter_top_jobs [5, 5] 0 (-1)` is `[5]`, not `[]`. -/
theorem c4_counterexample :
    filter_top_jobs [5, 5] 0 (-1) = [5] ∧
      ¬ filter_top_jobs [5, 5] 0 (-1) = [] := by
  decide

/-- C4, amended: for every score list and min_score, the rank/filter step
with top_k = 0 returns the empty list (without error), and when no posting
reaches min_score it returns the empty list for every top_k. -/
theorem c4_empty_results :
    ∀ (scores : List ℤ) (min_score top_k : ℤ),
      (top_k = 0 → filter_top_jobs scores min_score top_k = []) ∧
      ((∀ s ∈ scores, s < min_score) →
        filter_top_jobs scores min_score top_k = []) := by
  intro scores m k
  constructor
  · rintro rfl
    simp [filter_top_jobs, pd_head]
  · intro h
    have hf : scores.filter (fun s => decide (m ≤ s)) = [] := by
      refine List.filter_eq_nil_iff.mpr fun a ha => ?_
      simp [not_le.mpr (h a ha)]
    simp [filter_top_jobs, hf, pd_head]

/-- C4, witness: the amended theorem at concrete inputs — top_k = 0 on
[1, 2] with min_score 5 gives [], and min_score 5 with no qualifying score
gives [] for top_k = 3. -/
theorem c4_empty_results_witness :
    filter_top_jobs [1, 2] 5 0 = [] ∧ filter_top_jobs [1, 2] 5 3 = [] :=
  ⟨(c4_empty_results [1, 2] 5 0).1 rfl,
    (c4_empty_results [1, 2] 5 3).2 (by decide)⟩

/-- C6: for every normalized text and keyword policy, the keyword score is
the truncation to an integer — applied once, at the end of the whole pass —
of the sum over all keywords of
`weight * min(n, 3) * (4/5)^(max 0 (n-1))`, where `n` counts the
case-insensitive word-boundary occurrences of the keyword. -/
theorem c6_keyword_score_formula :
    ∀ (text : List Char) (keywords : List (List Char × ℤ)),
      (score_keywords text keywords).1 = keyword_score_spec text keywords :=
  fun text keywords =>
    congrArg truncQ (score_keywords_aux_fst text keywords)

/-- C7: every `ScoringResult` produced by `score_job` satisfies the exact
integer identity `total_score = keyword_score + location_score +
remote_bonus - seniority_malus - length_penalty`. -/
theorem c7_total_score_additive :
    ∀ (text : List Char) (keywords : List (List Char × ℤ))
      (bonus_remote malus_senior : ℤ) (location job_type : List Char),
      (score_job text keywords bonus_remote malus_senior location
        job_type).total_score =
        (score_job text keywords bonus_remote malus_senior location
          job_type).keyword_score +
        (score_job text keywords bonus_remote malus_senior location
          job_type).location_score +
        (score_job text keywords bonus_remote malus_senior location
          job_type).remote_bonus -
        (score_job text keywords bonus_remote malus_senior location
          job_type).seniority_malus -
        (score_job text keywords bonus_remote malus_senior location
          job_type).length_penalty :=
  fun _ _ _ _ _ _ => rfl

/-- C8: the seniority malus is capped at `2 * malus_senior` for every text
and malus (the source takes `min` with `malus_senior * 2`); and any text
containing both "senior" and "lead" scores, with malus_senior = 3, exactly
6 = 2 * 3. -/
theorem c8_seniority_cap :
    ∀ (text : List Char) (malus_senior : ℤ),
      calculate_seniority_malus text malus_senior ≤ 2 * malus_senior ∧
        (hasSubstr text ("senior".toList) = true →
          hasSubstr text ("lead".toList) = true →
          calculate_seniority_malus text 3 = 6) := by
  intro text ms
  constructor
  · calc calculate_seniority_malus text ms ≤ ms * 2 := min_le_right _ _
      _ = 2 * ms := mul_comm ms 2
  · intro hs hl
    have h1 : negContrib text 3 ("senior".toList) = 3 := by
      unfold negContrib; rw [hs]; decide
    have h2 : negContrib text 3 ("lead".toList) = 3 := by
      unfold negContrib; rw [hl]; decide
    have e : seniority_aux text 3 negative_keywords =
        negContrib text 3 ("senior".toList) +
          (negContrib text 3 ("lead".toList) +
            seniority_aux text 3 ["leiter".toList, "head".toList,
              "director".toList, "manager".toList, "5+ jahre".toList,
              "mehrjährig".toList, "langjährig".toList, "erfahren".toList,
              "vollzeit".toList, "40 stunden".toList,
              "unbefristet".toList]) := rfl
    have h3 := seniority_aux_nonneg_three text ["leiter".toList,
      "head".toList, "director".toList, "manager".toList, "5+ jahre".toList,
      "mehrjährig".toList, "langjährig".toList, "erfahren".toList,
      "vollzeit".toList, "40 stunden".toList, "unbefristet".toList]
    unfold calculate_seniority_malus
    rw [e, h1, h2, min_eq_right (by linarith)]
    norm_num

/-- C8, witness: the cap and the scenario applied to the text
"senior lead entwickler" with malus_senior = 3. -/
theorem c8_seniority_cap_witness :
    calculate_seniority_malus ("senior lead entwickler".toList) 3 = 6 :=
  (c8_seniority_cap ("senior lead entwickler".toList) 3).2
    (by decide) (by decide)

/-- C9: raising one keyword's weight (all else fixed, the keyword matching
at least once) never lowers the keyword score. -/
theorem c9_weight_monotone :
    ∀ (text : List Char) (pre post : List (List Char × ℤ))
      (kw : List Char) (w w' : ℤ), w ≤ w' →
      0 < countMatches text (lower kw) →
      (score_keywords text (pre ++ (kw, w) :: post)).1 ≤
        (score_keywords text (pre ++ (kw, w') :: post)).1 := by
  intro text pre post kw w w' hw _hn
  have key : (score_keywords_aux text (pre ++ (kw, w) :: post)).1 ≤
      (score_keywords_aux text (pre ++ (kw, w') :: post)).1 := by
    rw [score_keywords_aux_fst, score_keywords_aux_fst]
    simp only [List.map_append, List.map_cons, List.sum_append,
      List.sum_cons]
    have hterm : (w : ℚ) *
        ((min (countMatches text (lower kw)) 3 : ℕ) : ℚ) *
        (4 / 5 : ℚ) ^ (countMatches text (lower kw) - 1) ≤
        (w' : ℚ) * ((min (countMatches text (lower kw)) 3 : ℕ) : ℚ) *
        (4 / 5 : ℚ) ^ (countMatches text (lower kw) - 1) := by
      refine mul_le_mul_of_nonneg_right
        (mul_le_mul_of_nonneg_right ?_ (by positivity)) (by positivity)
      exact_mod_cast hw
    linarith
  exact truncQ_mono key

/-- C9, witness: the monotonicity theorem at text "python", the singleton
policy for keyword "python", and weights 1 ≤ 2. -/
theorem c9_weight_monotone_witness :
    (score_keywords ("python".toList) [("python".toList, 1)]).1 ≤
      (score_keywords ("python".toList) [("python".toList, 2)]).1 :=
  c9_weight_monotone ("python".toList) [] [] ("python".toList) 1 2
    (by decide) (by decide)

/-- C10: scoring the empty text (with any policy, any bonus_remote, and any
nonnegative malus_senior, covering the source defaults) yields the all-zero
`ScoringResult`; the embedding is a total function, so no text content can
raise. -/
theorem c10_empty_text_all_zero :
    ∀ (keywords : List (List Char × ℤ)) (bonus_remote malus_senior : ℤ),
      0 ≤ malus_senior →
      score_job [] keywords bonus_remote malus_senior [] [] =
        ⟨0, 0, 0, 0, 0, 0, []⟩ := by
  intro kws br ms hms
  have hk := score_keywords_empty kws
  have hloc : score_location [] [] = 0 := by decide
  have hrb : calculate_remote_bonus [] br = 0 := by
    have ha : (remote_indicators.any fun ind => hasSubstr [] ind) = false := by
      decide
    simp [calculate_remote_bonus, ha]
  have hsm : calculate_seniority_malus [] ms = 0 := by
    unfold calculate_seniority_malus
    rw [seniority_aux_zero ms negative_keywords (by decide)]
    exact min_eq_left (mul_nonneg hms (by norm_num))
  have hlp : calculate_length_penalty [] [] = 0 := by decide
  simp [score_job, lower_nil, hk, hloc, hrb, hsm, hlp]

/-- C10, witness: the all-zero result on the empty text with the singleton
policy {python: 4} and the source defaults bonus_remote = 2,
malus_senior = 3. -/
theorem c10_empty_text_all_zero_witness :
    score_job [] [("python".toList, 4)] 2 3 [] [] = ⟨0, 0, 0, 0, 0, 0, []⟩ :=
  c10_empty_text_all_zero [("python".toList, 4)] 2 3 (by norm_num)

end AutoApply

